import Mathlib

/-!
Verification of the launch-and-supervise orchestrator of the
mcp-supergateway-hub repository (gateway/index.js and gateway/servers.js).

The embedding below translates, function by function, the JavaScript source
into executable Lean definitions:
  * `splitCharsOn`, `trimChars` model the string primitives used by the
    source (String.prototype.split with a one-character separator, and
    String.prototype.trim), operating on the character list of a string;
  * `parseEnvLine` / `loadEnvFile` model the manual .env loader
    (index.js lines 26-39);
  * `flagValue` / `splitCommas` / `selectServers` model the command-line
    filtering of the registry (index.js lines 63-75);
  * `buildChildEnv` models the child-environment construction
    (index.js lines 95-103);
  * `RaceState` / `raceStep` / `runRace` model the per-launch race between
    the startup timer, the spawn-error event and the exit event inside
    `launchServer` (index.js lines 105-154); the `running` and `failed`
    fields are the two append-only outcome collections, and `resolved`
    records whether (and with which boolean) the launch promise was
    resolved;
  * `toBatches`, `launchLoop` and `runTrace` model the batched launch loop
    of `main` (index.js lines 166-185): batch partitioning, the port
    computed for each descriptor, and the order of the observable events
    (spawn, race resolution, progress report) produced by the loop;
  * `urlFor`, `mcpServersMap` and `settingsEntries` model
    `generateSettings` (index.js lines 203-222).
-/

/-- Model of the JavaScript String.prototype.split with a one-character
separator, on the character list of the string. -/
def splitCharsOn (sep : Char) : List Char → List (List Char)
  | [] => [[]]
  | c :: cs =>
    if c = sep then [] :: splitCharsOn sep cs
    else
      match splitCharsOn sep cs with
      | [] => [[c]]
      | h :: t => (c :: h) :: t

/-- Model of the JavaScript String.prototype.trim on a character list:
whitespace is removed from both ends. -/
def trimChars (cs : List Char) : List Char :=
  ((cs.dropWhile Char.isWhitespace).reverse.dropWhile Char.isWhitespace).reverse

/-- One line of the .env file, as parsed by the loader in index.js lines
28-34: the line is trimmed; an empty or #-starting line yields nothing; a
line without = yields nothing; otherwise the first = splits key from value
and both parts are trimmed. -/
def parseEnvLine (line : String) : Option (String × String) :=
  let trimmed := trimChars line.data
  if trimmed = [] then none
  else if trimmed.head? = some '#' then none
  else
    let keyPart := trimmed.takeWhile (fun c => c != '=')
    let rest := trimmed.dropWhile (fun c => c != '=')
    match rest with
    | [] => none
    | _ :: valPart => some (String.mk (trimChars keyPart), String.mk (trimChars valPart))

/-- The body of the .env loader loop (index.js lines 28-38) for one line:
a parsed binding is written into the process environment only when the
current value of the key is falsy (absent, or the empty string):
`if (!process.env[key])`. -/
def applyEnvLine (env : String → Option String) (line : String) : String → Option String :=
  match parseEnvLine line with
  | none => env
  | some kv =>
    match env kv.1 with
    | none => fun q => if q = kv.1 then some kv.2 else env q
    | some s => if s = "" then (fun q => if q = kv.1 then some kv.2 else env q) else env

/-- The .env loader of index.js lines 26-39: the file content is split on
newlines and every line is processed by `applyEnvLine`. -/
def loadEnvFile (content : String) (env0 : String → Option String) : String → Option String :=
  ((splitCharsOn (Char.ofNat 10) content.data).map String.mk).foldl applyEnvLine env0

/-- A server descriptor from gateway/servers.js: name, command, argument
list, and the optional environment overlay. An overlay value of `none`
models a JavaScript value that is undefined or null (for example a
reference to an unset process-environment key). -/
structure ServerDescriptor where
  name : String
  command : String
  args : List String
  env : List (String × Option String)
deriving Repr, DecidableEq

/-- Lookup of the value following a flag in the argument list, as done by
index.js lines 65-75: `args.indexOf(flag)` finds the first occurrence, and
the filter is applied only when `args[idx + 1]` is truthy, that is, when
the following argument exists and is not the empty string. -/
def flagValue (args : List String) (flag : String) : Option String :=
  match List.findIdx? (fun a => a == flag) args with
  | none => none
  | some i =>
    match args[i + 1]? with
    | none => none
    | some v => if v = "" then none else some v

/-- The comma-splitting of a flag value, as in `args[idx + 1].split(',')`. -/
def splitCommas (s : String) : List String :=
  (splitCharsOn (Char.ofNat 44) s.data).map String.mk

/-- The registry filtering of index.js lines 63-75: when --only carries a
truthy value the registry is filtered to names in that comma-separated
set, and then, when --exclude carries a truthy value, names in that set
are dropped. -/
def selectServers (registry : List ServerDescriptor) (args : List String) : List ServerDescriptor :=
  let afterOnly :=
    match flagValue args "--only" with
    | some v => registry.filter (fun s => (splitCommas v).contains s.name)
    | none => registry
  match flagValue args "--exclude" with
  | some v => afterOnly.filter (fun s => !(splitCommas v).contains s.name)
  | none => afterOnly

/-- The child-environment construction of index.js lines 95-103: the base
process environment is copied and each overlay entry whose value is not
undefined and not null is written over it; entries with value `none`
(undefined/null) are skipped. -/
def buildChildEnv (base : String → Option String) (overlay : List (String × Option String)) :
    String → Option String :=
  overlay.foldl
    (fun acc kv =>
      match kv.2 with
      | some v => fun k => if k = kv.1 then some v else acc k
      | none => acc)
    base

/-- The observable events of one launch race inside `launchServer`:
the 5000 ms startup timer firing, the spawn error event, the process exit
event (with the exit code, `none` modelling a null code from a signal),
and a chunk arriving on the stderr stream. -/
inductive RaceEvent where
  | timeoutFire : RaceEvent
  | errorEvent (msg : String) : RaceEvent
  | exitEvent (code : Option Int) : RaceEvent
  | dataEvent (chunk : String) : RaceEvent
deriving Repr, DecidableEq

/-- The state of one launch race: the `started` flag, whether the startup
timer is still pending, the two append-only outcome collections `running`
(name, port, pid) and `failed` (name, error message), whether and how the
launch promise was resolved, and the accumulated stderr buffer. -/
structure RaceState where
  started : Bool
  timerActive : Bool
  running : List (String × Nat × Nat)
  failed : List (String × String)
  resolved : Option Bool
  stderrBuf : String
deriving Repr, DecidableEq

/-- The race state at the moment `spawn` returns inside `launchServer`:
nothing started, timer pending, no outcomes, promise pending, empty
stderr buffer. -/
def initRace : RaceState :=
  { started := false, timerActive := true, running := [], failed := [],
    resolved := none, stderrBuf := "" }

/-- Printing of the exit code in the failure message: a null code prints
as the string null, as JavaScript template interpolation does. -/
def exitCodeStr : Option Int → String
  | some c => toString c
  | none => "null"

/-- The failure message built in the exit handler (index.js line 136):
when the trimmed stderr buffer is nonempty the last three lines are
joined, otherwise only the exit code is reported. -/
def exitErrMsg (code : Option Int) (buf : String) : String :=
  let t := String.mk (trimChars buf.data)
  if t = "" then "exit code " ++ exitCodeStr code
  else
    let lastLines := (((splitCharsOn (Char.ofNat 10) t.data).map String.mk).reverse.take 3).reverse
    "exit code " ++ exitCodeStr code ++ ": " ++ String.intercalate " | " lastLines

/-- One step of the launch race, translated handler by handler from
`launchServer` (index.js lines 112-153).
The timer callback: only when the timer is still pending; when `started`
is still false it marks started, appends a Running outcome and resolves
the promise with true.
The error handler: when `started` is still false it marks started, cancels
the timer, appends a Failed outcome and resolves with false.
The exit handler: when `started` is still false it marks started and
cancels the timer, and only when the code differs from zero appends a
Failed outcome and resolves with false — an early exit with code zero
leaves the collections and the promise untouched; when `started` is
already true the exit is only logged.
The stderr data handler appends to the buffer. -/
def raceStep (name : String) (port pid : Nat) (s : RaceState) : RaceEvent → RaceState
  | .timeoutFire =>
    if s.timerActive then
      if !s.started then
        { s with started := true, timerActive := false,
                 running := s.running ++ [(name, port, pid)], resolved := some true }
      else { s with timerActive := false }
    else s
  | .errorEvent msg =>
    if !s.started then
      { s with started := true, timerActive := false,
               failed := s.failed ++ [(name, msg)], resolved := some false }
    else s
  | .exitEvent code =>
    if !s.started then
      if code ≠ some 0 then
        { s with started := true, timerActive := false,
                 failed := s.failed ++ [(name, exitErrMsg code s.stderrBuf)],
                 resolved := some false }
      else
        { s with started := true, timerActive := false }
    else s
  | .dataEvent chunk => { s with stderrBuf := s.stderrBuf ++ chunk }

/-- A launch race driven by a sequence of events. -/
def runRace (name : String) (port pid : Nat) (s : RaceState) (evs : List RaceEvent) : RaceState :=
  evs.foldl (raceStep name port pid) s

/-- The number of outcomes this race has recorded. -/
def outcomeCount (s : RaceState) : Nat :=
  s.running.length + s.failed.length

/-- The batch partition of the launch loop (index.js lines 166-168): the
selected list is cut into consecutive slices of BATCH_SIZE = 10. -/
def toBatches {α : Type} : List α → List (List α)
  | [] => []
  | x :: xs => ((x :: xs).take 10) :: toBatches (xs.drop 9)
termination_by l => l.length
decreasing_by simp; omega

/-- The launch loop of `main` (index.js lines 166-173) restricted to its
port computation: the batch starting at absolute index i pairs its j-th
descriptor with port B + i + j. -/
def launchLoop {α : Type} (B : Nat) (i : Nat) : List α → List (α × Nat)
  | [] => []
  | x :: xs =>
    (((x :: xs).take 10).enum.map (fun p => (p.2, B + i + p.1)))
      ++ launchLoop B (i + 10) (xs.drop 9)
termination_by l => l.length
decreasing_by simp; omega

/-- Specification-side description of the port assignment: the k-th
element of the list is paired with p + k. -/
def portPlan {α : Type} (p : Nat) : List α → List (α × Nat)
  | [] => []
  | x :: xs => (x, p) :: portPlan (p + 1) xs

/-- The observable events of the batched launch loop: the spawn of a
descriptor of a batch, the resolution of its race, and the progress line
printed for it after the batch join. -/
inductive BatchEvent (α : Type) where
  | start (batch : Nat) (s : α)
  | resolve (batch : Nat) (s : α)
  | report (batch : Nat) (s : α)
deriving Repr, DecidableEq

/-- The event trace of the batched loop of `main` (index.js lines
166-185): per batch, all spawns happen first (batch.map calls
launchServer synchronously for every member before awaiting), then the
races resolve in an arbitrary order given by `res`, then — only after
Promise.all — the progress line of every member is printed, and only then
does the next batch begin. -/
def runTrace {α : Type} (res : List α → List α) : Nat → List (List α) → List (BatchEvent α)
  | _, [] => []
  | i, b :: bs =>
    b.map (BatchEvent.start i) ++ (res b).map (BatchEvent.resolve i)
      ++ b.map (BatchEvent.report i) ++ runTrace res (i + 1) bs

/-- A key that orders the trace: all events of batch i sort before all
events of batch i+1, and within a batch starts sort before resolutions,
which sort before reports. -/
def evKey {α : Type} : BatchEvent α → Nat
  | .start i _ => 3 * i
  | .resolve i _ => 3 * i + 1
  | .report i _ => 3 * i + 2

/-- The endpoint URL built by `generateSettings` (index.js line 212). -/
def urlFor (publicHost : String) (port : Nat) : String :=
  "http://" ++ publicHost ++ ":" ++ toString port ++ "/mcp"

/-- The mcpServers object built by `generateSettings` (index.js lines
209-214): entries are written in order into an object, so for a repeated
name the last entry wins. The object is modelled by its lookup
function. -/
def mcpServersMap (publicHost : String) (entries : List (String × Nat)) :
    String → Option String :=
  entries.foldl
    (fun acc e => fun k => if k = e.1 then some (urlFor publicHost e.2) else acc k)
    (fun _ => none)

/-- The entry list used by `generateSettings` (index.js lines 204-207):
the active (running) servers when given, otherwise the full registry with
ports recomputed as BASE_PORT + index. -/
def settingsEntries (basePort : Nat) (registry : List ServerDescriptor) :
    Option (List (String × Nat)) → List (String × Nat)
  | some active => active
  | none => registry.enum.map (fun p => (p.2.name, basePort + p.1))

/-- The (name, port) pairs of the running collection, as passed from
`main` to `generateSettings`. -/
def runningEntries (s : RaceState) : List (String × Nat) :=
  s.running.map (fun e => (e.1, e.2.1))

/-- A sample descriptor used to instantiate general theorems. -/
def srvA : ServerDescriptor := { name := "a", command := "npx", args := ["-y", "pkg-a"], env := [] }

/-- A second sample descriptor used to instantiate general theorems. -/
def srvB : ServerDescriptor := { name := "b", command := "npx", args := ["-y", "pkg-b"], env := [] }

/-- A descriptor sharing its name with `srvDupB`, for the duplicate-name
scenario. -/
def srvDupA : ServerDescriptor := { name := "dup", command := "npx", args := ["-y", "pkg-1"], env := [] }

/-- A descriptor sharing its name with `srvDupA`, for the duplicate-name
scenario. -/
def srvDupB : ServerDescriptor := { name := "dup", command := "npx", args := ["-y", "pkg-2"], env := [] }

/-- A registry of 25 descriptors, for the three-batch scenario of the
specification. -/
def reg25 : List ServerDescriptor :=
  (List.range 25).map (fun n => { name := toString n, command := "npx", args := [], env := [] })

/-! ## Lemmas about the launch race -/

/-- Once a race has started and its timer is cancelled, no further event
changes the outcome collections, the resolution, or those two flags. -/
lemma raceStep_of_started (name : String) (port pid : Nat) (s : RaceState) (e : RaceEvent)
    (hs : s.started = true) (ht : s.timerActive = false) :
    (raceStep name port pid s e).started = true
    ∧ (raceStep name port pid s e).timerActive = false
    ∧ (raceStep name port pid s e).running = s.running
    ∧ (raceStep name port pid s e).failed = s.failed
    ∧ (raceStep name port pid s e).resolved = s.resolved := by
  cases e <;> simp [raceStep, hs, ht]

/-- Iterated form of `raceStep_of_started`: a started race with a
cancelled timer is frozen for any sequence of further events. -/
lemma runRace_of_started (name : String) (port pid : Nat) (evs : List RaceEvent) :
    ∀ (s : RaceState), s.started = true → s.timerActive = false →
      (runRace name port pid s evs).started = true
      ∧ (runRace name port pid s evs).timerActive = false
      ∧ (runRace name port pid s evs).running = s.running
      ∧ (runRace name port pid s evs).failed = s.failed
      ∧ (runRace name port pid s evs).resolved = s.resolved := by
  induction evs with
  | nil => intro s hs ht; exact ⟨hs, ht, rfl, rfl, rfl⟩
  | cons e evs ih =>
    intro s hs ht
    have h1 := raceStep_of_started name port pid s e hs ht
    have h2 := ih (raceStep name port pid s e) h1.1 h1.2.1
    have hr : runRace name port pid s (e :: evs)
        = runRace name port pid (raceStep name port pid s e) evs := rfl
    rw [hr]
    exact ⟨h2.1, h2.2.1, h2.2.2.1.trans h1.2.2.1, h2.2.2.2.1.trans h1.2.2.2.1,
      h2.2.2.2.2.trans h1.2.2.2.2⟩

/-! ## Claims C1, C2, C8: the launch race -/

/-- C1: the claim says a child process exiting with code 0 before the
startup timeout is resolved as a Failed outcome, like a nonzero exit.
The code contradicts this: the exit handler appends a Failed outcome and
resolves the promise only when the code differs from 0; on a clean early
exit it marks the race started and cancels the timer but records no
outcome at all and never resolves the launch promise, and the later
timeout cannot fire either, so the launch hangs unresolved. This theorem
evaluates the embedded handlers at that failing input. -/
theorem c1_clean_early_exit_unresolved :
    (runRace "a" 3170 1 initRace [RaceEvent.exitEvent (some 0)]).failed = []
    ∧ (runRace "a" 3170 1 initRace [RaceEvent.exitEvent (some 0)]).running = []
    ∧ (runRace "a" 3170 1 initRace [RaceEvent.exitEvent (some 0)]).resolved = none
    ∧ (runRace "a" 3170 1 initRace
        [RaceEvent.exitEvent (some 0), RaceEvent.timeoutFire]).resolved = none
    ∧ (runRace "a" 3170 1 initRace [RaceEvent.exitEvent (some 1)]).resolved = some false := by
  refine ⟨rfl, rfl, rfl, rfl, ?_⟩
  decide

/-- C2: the claim says exactly one LaunchOutcome is recorded for every
launched descriptor, whichever race event fires. The code contradicts
this: after an exit with code 0 before the timeout, zero outcomes are
recorded and the promise stays unresolved forever, whatever events follow. -/
theorem c2_clean_early_exit_loses_outcome (evs : List RaceEvent) :
    outcomeCount (runRace "a" 3170 1 initRace (RaceEvent.exitEvent (some 0) :: evs)) = 0
    ∧ (runRace "a" 3170 1 initRace (RaceEvent.exitEvent (some 0) :: evs)).resolved = none := by
  have h0 : raceStep "a" 3170 1 initRace (RaceEvent.exitEvent (some 0)) =
      { started := true, timerActive := false, running := [], failed := [],
        resolved := none, stderrBuf := "" } := by decide
  have hr : runRace "a" 3170 1 initRace (RaceEvent.exitEvent (some 0) :: evs)
      = runRace "a" 3170 1 (raceStep "a" 3170 1 initRace (RaceEvent.exitEvent (some 0))) evs := rfl
  rw [hr, h0]
  have h2 := runRace_of_started "a" 3170 1 evs
    { started := true, timerActive := false, running := [], failed := [],
      resolved := none, stderrBuf := "" } rfl rfl
  refine ⟨?_, h2.2.2.2.2⟩
  simp [outcomeCount, h2.2.2.1, h2.2.2.2.1]

/-- C8: once a launch has resolved as Running, any later exit of the
child (and any other late event) is log-only: the outcome collections,
the resolution, the summary counts and the settings mapping generated
from the running snapshot are all unchanged. -/
theorem c8_late_exit_is_log_only (name : String) (port pid : Nat) (host : String)
    (s : RaceState) (evs : List RaceEvent)
    (hres : s.resolved = some true) (hs : s.started = true) (ht : s.timerActive = false) :
    (runRace name port pid s evs).resolved = some true
    ∧ (runRace name port pid s evs).running = s.running
    ∧ (runRace name port pid s evs).failed = s.failed
    ∧ outcomeCount (runRace name port pid s evs) = outcomeCount s
    ∧ mcpServersMap host (runningEntries (runRace name port pid s evs))
        = mcpServersMap host (runningEntries s) := by
  have h := runRace_of_started name port pid evs s hs ht
  refine ⟨h.2.2.2.2.trans hres, h.2.2.1, h.2.2.2.1, ?_, ?_⟩
  · simp [outcomeCount, h.2.2.1, h.2.2.2.1]
  · simp [runningEntries, h.2.2.1]

/-- Witness for C8: a race resolved as Running by the timeout, followed
by a late exit with code 1, keeps its outcome, counts and settings
mapping. -/
theorem c8_late_exit_is_log_only_witness :
    (runRace "b" 3171 7 (runRace "b" 3171 7 initRace [RaceEvent.timeoutFire])
        [RaceEvent.exitEvent (some 1)]).resolved = some true
    ∧ (runRace "b" 3171 7 (runRace "b" 3171 7 initRace [RaceEvent.timeoutFire])
        [RaceEvent.exitEvent (some 1)]).running
      = (runRace "b" 3171 7 initRace [RaceEvent.timeoutFire]).running
    ∧ (runRace "b" 3171 7 (runRace "b" 3171 7 initRace [RaceEvent.timeoutFire])
        [RaceEvent.exitEvent (some 1)]).failed
      = (runRace "b" 3171 7 initRace [RaceEvent.timeoutFire]).failed
    ∧ outcomeCount (runRace "b" 3171 7 (runRace "b" 3171 7 initRace [RaceEvent.timeoutFire])
        [RaceEvent.exitEvent (some 1)])
      = outcomeCount (runRace "b" 3171 7 initRace [RaceEvent.timeoutFire])
    ∧ mcpServersMap "h" (runningEntries (runRace "b" 3171 7
        (runRace "b" 3171 7 initRace [RaceEvent.timeoutFire]) [RaceEvent.exitEvent (some 1)]))
      = mcpServersMap "h" (runningEntries (runRace "b" 3171 7 initRace [RaceEvent.timeoutFire])) := by
  exact c8_late_exit_is_log_only "b" 3171 7 "h"
    (runRace "b" 3171 7 initRace [RaceEvent.timeoutFire]) [RaceEvent.exitEvent (some 1)]
    (by decide) (by decide) (by decide)

/-! ## Claims C6, C7: child environment and .env loader -/

/-- Unfolding of `buildChildEnv` on a cons cell. -/
lemma buildChildEnv_cons (base : String → Option String) (kv : String × Option String)
    (rest : List (String × Option String)) :
    buildChildEnv base (kv :: rest)
      = buildChildEnv
          (match kv.2 with
           | some v => fun k => if k = kv.1 then some v else base k
           | none => base) rest := rfl

/-- Counterexample for C6: the claim says every absent or empty overlay
value is skipped, leaving the base environment value untouched. The code
only skips undefined/null values: an empty-string overlay value is
written and does overwrite the base value. -/
theorem c6_empty_overlay_counterexample :
    buildChildEnv (fun k => if k = "K" then some "BASE" else none) [("K", some "")] "K" = some ""
    ∧ (fun k => if k = "K" then some "BASE" else none) "K" = some "BASE" := by
  constructor <;> decide

/-- C6 (amended): the child environment is the process environment
overlaid with the descriptor env mapping, where overlay entries win and
an entry whose value is undefined or null is skipped, leaving the base
value untouched; an empty-string value is applied like any other. -/
theorem c6_child_env_overlay (base : String → Option String)
    (overlay : List (String × Option String))
    (hnd : (overlay.map Prod.fst).Nodup) (k : String) :
    buildChildEnv base overlay k =
      match overlay.lookup k with
      | some (some v) => some v
      | some none => base k
      | none => base k := by
  induction overlay generalizing base with
  | nil => rfl
  | cons kv rest ih =>
    obtain ⟨k0, v0⟩ := kv
    simp only [List.map_cons, List.nodup_cons] at hnd
    rw [buildChildEnv_cons]
    by_cases hk : k = k0
    · subst hk
      have hlook : rest.lookup k = none := by
        rw [List.lookup_eq_none_iff]
        intro p hp
        have hmem : p.1 ∈ rest.map Prod.fst := List.mem_map.mpr ⟨p, hp, rfl⟩
        have : k ≠ p.1 := fun h => hnd.1 (h ▸ hmem)
        simpa [bne] using this
      cases v0 with
      | some v =>
        rw [ih _ hnd.2, hlook]
        simp [List.lookup_cons]
      | none =>
        rw [ih _ hnd.2, hlook]
        simp [List.lookup_cons]
    · have hbeq : (k == k0) = false := by simpa using hk
      cases v0 with
      | some v =>
        rw [ih _ hnd.2]
        cases hl : rest.lookup k with
        | none => simp [List.lookup_cons, hbeq, hl, hk]
        | some w => cases w <;> simp [List.lookup_cons, hbeq, hl, hk]
      | none =>
        rw [ih _ hnd.2]
        cases hl : rest.lookup k with
        | none => simp [List.lookup_cons, hbeq, hl]
        | some w => cases w <;> simp [List.lookup_cons, hbeq, hl]

/-- Witness for C6 (amended): an overlay with a real value and an
undefined value, applied to a concrete base environment. -/
theorem c6_child_env_overlay_witness :
    buildChildEnv (fun k => if k = "B" then some "BASE" else none)
      [("A", some "x"), ("B", none)] "B"
      = (fun k => if k = "B" then some "BASE" else none) "B" := by
  have h := c6_child_env_overlay (fun k => if k = "B" then some "BASE" else none)
    [("A", some "x"), ("B", none)] (by decide) "B"
  exact h

/-- A key whose current process-environment value is a nonempty string is
never touched by one loader step. -/
lemma applyEnvLine_keeps (env : String → Option String) (line : String) (k w : String)
    (hk : env k = some w) (hw : w ≠ "") : applyEnvLine env line k = some w := by
  unfold applyEnvLine
  cases hp : parseEnvLine line with
  | none => exact hk
  | some kv =>
    obtain ⟨k1, v1⟩ := kv
    cases he : env k1 with
    | none =>
      by_cases hq : k = k1
      · subst hq; rw [hk] at he; cases he
      · simp [he, hq, hk]
    | some s =>
      by_cases hs : s = ""
      · subst hs
        by_cases hq : k = k1
        · subst hq
          rw [hk] at he
          injection he with h2
          exact absurd h2 hw
        · simp [he, hq, hk]
      · simp [he, hs, hk]

/-- Iterated form of `applyEnvLine_keeps` over a list of lines. -/
lemma foldl_applyEnvLine_keeps (lines : List String) :
    ∀ (env : String → Option String) (k w : String), env k = some w → w ≠ "" →
      (lines.foldl applyEnvLine env) k = some w := by
  induction lines with
  | nil => intro env k w hk _; exact hk
  | cons line rest ih =>
    intro env k w hk hw
    rw [List.foldl_cons]
    exact ih (applyEnvLine env line) k w (applyEnvLine_keeps env line k w hk hw) hw

/-- Counterexample for C7: the claim says a key already present in the
process environment always retains its prior value. The loader only
checks truthiness (`if (!process.env[key])`), so a key present with the
empty-string value is overwritten by the file. -/
theorem c7_empty_value_overwritten_counterexample :
    loadEnvFile "K=v" (fun q => if q = "K" then some "" else none) "K" = some "v"
    ∧ (fun q => if q = "K" then some "" else none) "K" = some "" := by
  constructor <;> decide

/-- C7 (amended): the loader ignores blank lines, lines starting with #,
and lines without =; a kept line is split at the first =, with both key
and value trimmed of surrounding whitespace; and a key whose prior
process-environment value is a nonempty string is never overwritten. A
key that is absent, or present with the empty-string value, is assigned
the file value. -/
theorem c7_env_loader :
    (∀ line : String,
      (trimChars line.data = [] ∨ (trimChars line.data).head? = some '#'
        ∨ (trimChars line.data).dropWhile (fun c => c != '=') = [])
      → parseEnvLine line = none)
    ∧ parseEnvLine " A =  B = C " = some ("A", "B = C")
    ∧ (∀ (content : String) (env0 : String → Option String) (k w : String),
        env0 k = some w → w ≠ "" → loadEnvFile content env0 k = some w) := by
  refine ⟨?_, by decide, ?_⟩
  · intro line h
    unfold parseEnvLine
    rcases h with h | h | h
    · simp [h]
    · have hne : trimChars line.data ≠ [] := by
        intro hnil; rw [hnil] at h; cases h
      simp [hne, h]
    · by_cases hnil : trimChars line.data = []
      · simp [hnil]
      · by_cases hhash : (trimChars line.data).head? = some '#'
        · simp [hnil, hhash]
        · simp [hnil, hhash, h]
  · intro content env0 k w hk hw
    exact foldl_applyEnvLine_keeps _ env0 k w hk hw

/-- Witness for C7 (amended): a comment line parses to nothing, and a key
with the nonempty prior value v1 survives a file that tries to set it. -/
theorem c7_env_loader_witness :
    parseEnvLine "# note" = none
    ∧ loadEnvFile "K=v2" (fun q => if q = "K" then some "v1" else none) "K" = some "v1" := by
  constructor
  · exact c7_env_loader.1 "# note" (by decide)
  · exact c7_env_loader.2.2 "K=v2" (fun q => if q = "K" then some "v1" else none) "K" "v1"
      (by decide) (by decide)

/-! ## Claims C5, C10: registry selection -/

/-- C5: the selection keeps the registry order (it is a subsequence of
the registry), and a descriptor is selected exactly when it is in the
registry, its name is in the --only set whenever that filter is active,
and its name is not in the --exclude set whenever that filter is active;
in particular exclude is applied last and names matching nothing cause no
error (selection is total and silently ignores them). -/
theorem c5_selector (registry : List ServerDescriptor) (args : List String) :
    (selectServers registry args).Sublist registry
    ∧ (∀ s : ServerDescriptor, s ∈ selectServers registry args ↔
        s ∈ registry
        ∧ (∀ v, flagValue args "--only" = some v → s.name ∈ splitCommas v)
        ∧ (∀ v, flagValue args "--exclude" = some v → s.name ∉ splitCommas v)) := by
  cases ho : flagValue args "--only" with
  | none =>
    cases he : flagValue args "--exclude" with
    | none =>
      constructor
      · simp [selectServers, ho, he]
      · intro s; simp [selectServers, ho, he]
    | some v =>
      constructor
      · simp only [selectServers, ho, he]
        exact List.filter_sublist _
      · intro s; simp [selectServers, ho, he, List.mem_filter, List.elem_iff]
  | some v =>
    cases he : flagValue args "--exclude" with
    | none =>
      constructor
      · simp only [selectServers, ho, he]
        exact List.filter_sublist _
      · intro s; simp [selectServers, ho, he, List.mem_filter, List.elem_iff]
    | some w =>
      constructor
      · simp only [selectServers, ho, he]
        exact (List.filter_sublist _).trans (List.filter_sublist _)
      · intro s
        simp [selectServers, ho, he, List.mem_filter, List.elem_iff]
        tauto

/-- Witness for C5: a concrete selection with both filters active; the
membership characterization is applied in the forward direction. -/
theorem c5_selector_witness :
    srvA ∈ [srvA, srvB]
    ∧ (∀ v, flagValue ["--only", "a,b", "--exclude", "b"] "--only" = some v
        → srvA.name ∈ splitCommas v)
    ∧ (∀ v, flagValue ["--only", "a,b", "--exclude", "b"] "--exclude" = some v
        → srvA.name ∉ splitCommas v) := by
  exact ((c5_selector [srvA, srvB] ["--only", "a,b", "--exclude", "b"]).2 srvA).mp (by decide)

/-- The index lookup for a flag appended as the very last token: the
first occurrence is at the end of the list. -/
lemma findIdx?_beq_append_self (f : String) :
    ∀ (l : List String) (i : Nat), f ∉ l →
      List.findIdx? (fun a => a == f) (l ++ [f]) i = some (i + l.length) := by
  intro l
  induction l with
  | nil => intro i _; simp [List.findIdx?_cons]
  | cons x xs ih =>
    intro i hf
    rw [List.mem_cons] at hf
    push_neg at hf
    have hx : (x == f) = false := beq_eq_false_iff_ne.mpr (fun h => hf.1 h.symm)
    rw [List.cons_append, List.findIdx?_cons, hx]
    simp only [Bool.false_eq_true, if_false]
    rw [ih (i + 1) hf.2]
    congr 1
    simp
    omega
/-- A flag absent from the argument list yields no filter value. -/
lemma flagValue_not_mem (args : List String) (f : String) (hf : f ∉ args) :
    flagValue args f = none := by
  unfold flagValue
  have h : List.findIdx? (fun a => a == f) args = none := by
    rw [List.findIdx?_eq_none_iff]
    intro x hx
    exact beq_eq_false_iff_ne.mpr (fun h => hf (h ▸ hx))
  rw [h]

/-- A flag appended as the last token, with nothing after it, yields no
filter value: `args[idx + 1]` is undefined. -/
lemma flagValue_append_self (args : List String) (f : String) (hf : f ∉ args) :
    flagValue (args ++ [f]) f = none := by
  unfold flagValue
  rw [findIdx?_beq_append_self f args 0 hf]
  have hnone : (args ++ [f])[args.length + 1]? = none := List.getElem?_eq_none (by simp)
  simp [hnone]

/-- C10: when --only (or --exclude) is the last command-line token with
no value following it, the truthiness check on `args[idx + 1]` fails, the
corresponding filter is silently ignored, and selection behaves exactly
as if the flag were absent: the full registry is selected. -/
theorem c10_trailing_flag_ignored (registry : List ServerDescriptor) (args : List String)
    (hO : "--only" ∉ args) (hE : "--exclude" ∉ args) :
    selectServers registry (args ++ ["--only"]) = registry
    ∧ selectServers registry (args ++ ["--exclude"]) = registry
    ∧ selectServers registry args = registry := by
  have hOE : "--only" ∉ args ++ ["--exclude"] := by
    simp only [List.mem_append, List.mem_singleton]
    rintro (h | h)
    · exact hO h
    · exact absurd h (by decide)
  have hEO : "--exclude" ∉ args ++ ["--only"] := by
    simp only [List.mem_append, List.mem_singleton]
    rintro (h | h)
    · exact hE h
    · exact absurd h (by decide)
  refine ⟨?_, ?_, ?_⟩
  · simp [selectServers, flagValue_append_self args "--only" hO,
      flagValue_not_mem (args ++ ["--only"]) "--exclude" hEO]
  · simp [selectServers, flagValue_append_self args "--exclude" hE,
      flagValue_not_mem (args ++ ["--exclude"]) "--only" hOE]
  · simp [selectServers, flagValue_not_mem args "--only" hO,
      flagValue_not_mem args "--exclude" hE]

/-- Witness for C10: with a registry of two descriptors and the argument
list ["--list"], appending a trailing --only or --exclude still selects
the full registry. -/
theorem c10_trailing_flag_ignored_witness :
    selectServers [srvA, srvB] (["--list"] ++ ["--only"]) = [srvA, srvB]
    ∧ selectServers [srvA, srvB] (["--list"] ++ ["--exclude"]) = [srvA, srvB]
    ∧ selectServers [srvA, srvB] ["--list"] = [srvA, srvB] := by
  exact c10_trailing_flag_ignored [srvA, srvB] ["--list"] (by decide) (by decide)

/-! ## Claim C3: port assignment -/

/-- Splitting a port plan across an append. -/
lemma portPlan_append {α : Type} (l1 : List α) :
    ∀ (p : Nat) (l2 : List α),
      portPlan p (l1 ++ l2) = portPlan p l1 ++ portPlan (p + l1.length) l2 := by
  induction l1 with
  | nil => intro p l2; simp [portPlan]
  | cons x xs ih =>
    intro p l2
    have harith : p + 1 + xs.length = p + (xs.length + 1) := by omega
    simp only [List.cons_append, portPlan, List.append_eq, ih (p + 1) l2, List.length_cons,
      harith]

/-- The mapped enumeration used by the batch loop is a port plan. -/
lemma enumFrom_map_portPlan {α : Type} (l : List α) :
    ∀ (n p : Nat), (List.enumFrom n l).map (fun q => (q.2, p + q.1)) = portPlan (p + n) l := by
  induction l with
  | nil => intro n p; rfl
  | cons x xs ih =>
    intro n p
    rw [List.enumFrom_cons]
    simp only [List.map_cons]
    rw [ih (n + 1) p]
    rfl

/-- The port computation of the batch loop is exactly the sequential port
plan: the descriptor at overall index k receives port B + i + k. -/
lemma launchLoop_eq_portPlan {α : Type} (B : Nat) :
    ∀ (i : Nat) (l : List α), launchLoop B i l = portPlan (B + i) l := by
  refine launchLoop.induct B (fun i l => launchLoop B i l = portPlan (B + i) l) ?_ ?_
  · intro i
    simp [launchLoop, portPlan]
  · intro i x xs ih
    rw [launchLoop, ih]
    have hsplit : x :: xs = (x :: xs).take 10 ++ (x :: xs).drop 10 :=
      (List.take_append_drop 10 (x :: xs)).symm
    conv_rhs => rw [hsplit]
    rw [portPlan_append]
    have hdrop : (x :: xs).drop 10 = xs.drop 9 := rfl
    rw [hdrop]
    congr 1
    · exact enumFrom_map_portPlan ((x :: xs).take 10) 0 (B + i)
    · by_cases hlen : 10 ≤ xs.length + 1
      · have h1 : ((x :: xs).take 10).length = 10 := by
          simp only [List.length_take, List.length_cons]
          omega
        rw [h1]
        have harith : B + (i + 10) = B + i + 10 := by omega
        rw [harith]
      · have h9 : xs.drop 9 = [] := List.drop_eq_nil_of_le (by omega)
        rw [h9]
        simp [portPlan]

/-- The first components of a port plan are the planned list itself. -/
lemma portPlan_map_fst {α : Type} (l : List α) :
    ∀ p : Nat, (portPlan p l).map Prod.fst = l := by
  induction l with
  | nil => intro p; rfl
  | cons x xs ih => intro p; simp [portPlan, ih]

/-- The second components of a port plan are the consecutive range
starting at the base. -/
lemma portPlan_map_snd {α : Type} (l : List α) :
    ∀ p : Nat, (portPlan p l).map Prod.snd = List.range' p l.length := by
  induction l with
  | nil => intro p; rfl
  | cons x xs ih => intro p; simp [portPlan, ih, List.range'_succ]

/-- C3: in the batch loop of main, the descriptor list is preserved in
order, the k-th selected descriptor (0-indexed) is assigned port B + k,
the assigned ports are the consecutive range starting at the base port
(no gaps), and no port is assigned twice (no reuse). The assignment is a
pure function of the base port and the selected list: no launch outcome
enters the computation. -/
theorem c3_sequential_ports (B : Nat) (S : List ServerDescriptor) :
    (launchLoop B 0 S).map Prod.fst = S
    ∧ (launchLoop B 0 S).map Prod.snd = List.range' B S.length
    ∧ ((launchLoop B 0 S).map Prod.snd).Nodup
    ∧ ∀ k, k < S.length → ((launchLoop B 0 S).map Prod.snd)[k]? = some (B + k) := by
  have hB : B + 0 = B := rfl
  have h := launchLoop_eq_portPlan B 0 S
  rw [hB] at h
  refine ⟨?_, ?_, ?_, ?_⟩
  · rw [h, portPlan_map_fst]
  · rw [h, portPlan_map_snd]
  · rw [h, portPlan_map_snd]
    exact List.nodup_range' B S.length
  · intro k hk
    rw [h, portPlan_map_snd, List.getElem?_range' B 1 hk]
    simp

/-- Witness for C3: in a registry of two descriptors with base port 3170,
the descriptor at index 1 receives port 3171. -/
theorem c3_sequential_ports_witness :
    ((launchLoop 3170 0 [srvA, srvB]).map Prod.snd)[1]? = some (3170 + 1) := by
  exact (c3_sequential_ports 3170 [srvA, srvB]).2.2.2 1 (by decide)

/-! ## Claim C9: duplicate descriptor names -/

/-- Counterexample for C9: the claim says a selected set with two
descriptors of the same name is detected as a fatal misconfiguration
before any launches begin. The code performs no such check: both
duplicates survive selection, both are launched by the batch loop, and in
the settings mapping the shared name silently collides (the last entry
wins). -/
theorem c9_duplicate_names_counterexample :
    selectServers [srvDupA, srvDupB] [] = [srvDupA, srvDupB]
    ∧ (launchLoop 3170 0 [srvDupA, srvDupB]).map Prod.fst = [srvDupA, srvDupB]
    ∧ srvDupA.name = srvDupB.name
    ∧ mcpServersMap "h" [("dup", 3170), ("dup", 3171)] "dup" = some "http://h:3171/mcp" := by
  refine ⟨by decide, ?_, by decide, by decide⟩
  rw [launchLoop_eq_portPlan]
  exact portPlan_map_fst _ _

/-- C9 (amended): the orchestrator performs no duplicate-name detection:
selection with no filter flags keeps the registry as is, every selected
descriptor is launched by the batch loop (duplicates included), and in
the settings mapping a repeated name silently collides, the last written
entry winning. -/
theorem c9_no_duplicate_detection (registry : List ServerDescriptor) (B : Nat)
    (host : String) (entries : List (String × Nat)) (n : String) (p : Nat) :
    selectServers registry [] = registry
    ∧ (launchLoop B 0 registry).map Prod.fst = registry
    ∧ mcpServersMap host (entries ++ [(n, p)]) n = some (urlFor host p) := by
  refine ⟨rfl, ?_, ?_⟩
  · rw [launchLoop_eq_portPlan]
    exact portPlan_map_fst _ _
  · simp [mcpServersMap, List.foldl_append]

/-! ## Claim C4: batch partitioning and batch ordering -/

/-- Unfolding of the batch partition on a nonempty list. -/
lemma toBatches_cons {α : Type} (l : List α) (h : l ≠ []) :
    toBatches l = l.take 10 :: toBatches (l.drop 10) := by
  cases l with
  | nil => exact absurd rfl h
  | cons x xs =>
    rw [toBatches]
    rfl

/-- The batches concatenate back to the selected list: the partition is
into consecutive groups covering the list. -/
lemma toBatches_flatten {α : Type} : ∀ l : List α, (toBatches l).flatten = l := by
  refine toBatches.induct (motive := fun l => (toBatches l).flatten = l) ?_ ?_
  · simp [toBatches]
  · intro x xs ih
    rw [toBatches, List.flatten_cons, ih]
    rw [show xs.drop 9 = (x :: xs).drop 10 from rfl, List.take_append_drop]

/-- Every batch has at most BATCH_SIZE = 10 elements. -/
lemma toBatches_length_le {α : Type} : ∀ l : List α, ∀ b ∈ toBatches l, b.length ≤ 10 := by
  refine toBatches.induct (motive := fun l => ∀ b ∈ toBatches l, b.length ≤ 10) ?_ ?_
  · intro b hb; simp [toBatches] at hb
  · intro x xs ih b hb
    rw [toBatches] at hb
    rcases List.mem_cons.mp hb with h | h
    · subst h
      simp [List.length_take]
    · exact ih b h

/-- A selected list of 25 descriptors is partitioned into exactly three
batches, of sizes 10, 10 and 5. -/
lemma toBatches_25 {α : Type} (l : List α) (h : l.length = 25) :
    (toBatches l).map List.length = [10, 10, 5] := by
  have h1 : l ≠ [] := by intro hnil; rw [hnil] at h; simp at h
  have hd10 : (l.drop 10).length = 15 := by simp [h]
  have h2 : l.drop 10 ≠ [] := by
    intro hnil; rw [hnil] at hd10; simp at hd10
  have hdd20 : (l.drop 10).drop 10 = l.drop 20 := by rw [List.drop_drop]
  have hd20 : (l.drop 20).length = 5 := by simp [h]
  have h3 : l.drop 20 ≠ [] := by
    intro hnil; rw [hnil] at hd20; simp at hd20
  have hdd30 : (l.drop 30).length = 0 := by simp [h]
  have h4 : l.drop 30 = [] := List.eq_nil_of_length_eq_zero hdd30
  rw [toBatches_cons l h1, toBatches_cons _ h2, hdd20, toBatches_cons _ h3,
    List.drop_drop, show (20 + 10) = 30 from rfl, h4]
  simp [toBatches, List.length_take, h, hd10, hd20]

/-- Every event in the trace of the batches from index i onward has key
at least 3 * i. -/
lemma evKey_runTrace_lb {α : Type} (res : List α → List α) :
    ∀ (bs : List (List α)) (i : Nat) (e : BatchEvent α),
      e ∈ runTrace res i bs → 3 * i ≤ evKey e := by
  intro bs
  induction bs with
  | nil => intro i e he; simp [runTrace] at he
  | cons b bs ih =>
    intro i e he
    simp only [runTrace, List.mem_append] at he
    rcases he with ((h | h) | h) | h
    · rcases List.mem_map.mp h with ⟨s, _, rfl⟩
      simp [evKey]
    · rcases List.mem_map.mp h with ⟨s, _, rfl⟩
      simp [evKey]
    · rcases List.mem_map.mp h with ⟨s, _, rfl⟩
      simp [evKey]
    · have := ih (i + 1) e h
      omega

/-- Mapping the key over a mapped constructor segment yields a constant
list. -/
lemma map_evKey_map_ctor {α : Type} (b : List α) (i c : Nat) (f : Nat → α → BatchEvent α)
    (hf : ∀ s, evKey (f i s) = c) :
    (b.map (f i)).map evKey = List.replicate b.length c := by
  induction b with
  | nil => rfl
  | cons x xs ih => simp [hf, ih, List.replicate]

/-- Prepending a constant block below a sorted list keeps it sorted. -/
lemma sorted_replicate_append (n c : Nat) (l : List Nat)
    (hl : List.Sorted (fun a b => a ≤ b) l) (hc : ∀ y ∈ l, c ≤ y) :
    List.Sorted (fun a b => a ≤ b) (List.replicate n c ++ l)
    ∧ ∀ y ∈ List.replicate n c ++ l, c ≤ y := by
  constructor
  · refine List.pairwise_append.mpr ⟨?_, hl, ?_⟩
    · exact List.pairwise_replicate.mpr (Or.inr le_rfl)
    · intro a ha y hy
      rw [List.eq_of_mem_replicate ha]
      exact hc y hy
  · intro y hy
    rcases List.mem_append.mp hy with hmem | hmem
    · rw [List.eq_of_mem_replicate hmem]
    · exact hc y hmem

/-- The keys of the trace are nondecreasing: in the emitted event order,
every event of a batch precedes every event of any later batch, and
within one batch all spawns precede all race resolutions, which precede
all progress reports. -/
lemma runTrace_sorted {α : Type} (res : List α → List α) :
    ∀ (bs : List (List α)) (i : Nat),
      List.Sorted (fun a b => a ≤ b) ((runTrace res i bs).map evKey) := by
  intro bs
  induction bs with
  | nil => intro i; simp [runTrace]
  | cons b bs ih =>
    intro i
    have hD := ih (i + 1)
    have hDlb : ∀ y ∈ (runTrace res (i + 1) bs).map evKey, 3 * i + 2 ≤ y := by
      intro y hy
      rcases List.mem_map.mp hy with ⟨e, he, rfl⟩
      have := evKey_runTrace_lb res bs (i + 1) e he
      omega
    have s1 := sorted_replicate_append b.length (3 * i + 2)
      ((runTrace res (i + 1) bs).map evKey) hD hDlb
    have s2 := sorted_replicate_append (res b).length (3 * i + 1)
      (List.replicate b.length (3 * i + 2) ++ (runTrace res (i + 1) bs).map evKey)
      s1.1 (fun y hy => by have := s1.2 y hy; omega)
    have s3 := sorted_replicate_append b.length (3 * i)
      (List.replicate (res b).length (3 * i + 1)
        ++ (List.replicate b.length (3 * i + 2) ++ (runTrace res (i + 1) bs).map evKey))
      s2.1 (fun y hy => by have := s2.2 y hy; omega)
    simp only [runTrace, List.map_append, List.append_assoc]
    rw [map_evKey_map_ctor b i (3 * i) BatchEvent.start (fun s => rfl),
      map_evKey_map_ctor (res b) i (3 * i + 1) BatchEvent.resolve (fun s => rfl),
      map_evKey_map_ctor b i (3 * i + 2) BatchEvent.report (fun s => rfl)]
    exact s3.1

/-- Every member of batch j is spawned, resolved and reported inside the
trace, whatever order the resolutions of each batch take. -/
lemma runTrace_mem {α : Type} (res : List α → List α) (hres : ∀ b, (res b).Perm b) :
    ∀ (bs : List (List α)) (i j : Nat) (b : List α), bs[j]? = some b → ∀ s ∈ b,
      BatchEvent.start (i + j) s ∈ runTrace res i bs
      ∧ BatchEvent.resolve (i + j) s ∈ runTrace res i bs
      ∧ BatchEvent.report (i + j) s ∈ runTrace res i bs := by
  intro bs
  induction bs with
  | nil => intro i j b hj; simp at hj
  | cons b0 bs ih =>
    intro i j b hj s hs
    cases j with
    | zero =>
      have hb : b0 = b := by simpa using hj
      subst hb
      simp only [runTrace]
      refine ⟨?_, ?_, ?_⟩
      · exact List.mem_append_left _ (List.mem_append_left _
          (List.mem_append_left _ (List.mem_map_of_mem _ hs)))
      · have hs2 : s ∈ res b0 := (hres b0).mem_iff.mpr hs
        exact List.mem_append_left _ (List.mem_append_left _
          (List.mem_append_right _ (List.mem_map_of_mem _ hs2)))
      · exact List.mem_append_left _ (List.mem_append_right _ (List.mem_map_of_mem _ hs))
    | succ j =>
      have hj2 : bs[j]? = some b := by simpa using hj
      have harith : i + 1 + j = i + (j + 1) := by omega
      have h3 := ih (i + 1) j b hj2 s hs
      rw [harith] at h3
      exact ⟨List.mem_append_right _ h3.1, List.mem_append_right _ h3.2.1,
        List.mem_append_right _ h3.2.2⟩

/-- C4: the selected list is partitioned into consecutive batches of at
most 10 (a 25-descriptor registry gives exactly the sizes 10, 10, 5
covering the list in order); in the event trace of the launch loop —
for every order in which the races of each batch may resolve — the keys
are nondecreasing, meaning all spawns of a batch precede all of its
resolutions, which precede its progress lines, and every event of batch
j precedes every event of batch j+1; and every member of every batch is
spawned, resolved and reported in the trace. Together: no launch of
batch j+1 starts, and no progress line of batch j is printed, before
every launch of batch j has resolved, and batches run strictly in
order. -/
theorem c4_batched_launches (l : List ServerDescriptor)
    (res : List ServerDescriptor → List ServerDescriptor)
    (hres : ∀ b, (res b).Perm b) :
    (toBatches l).flatten = l
    ∧ (∀ b ∈ toBatches l, b.length ≤ 10)
    ∧ (l.length = 25 → (toBatches l).map List.length = [10, 10, 5])
    ∧ List.Sorted (fun a b => a ≤ b) ((runTrace res 0 (toBatches l)).map evKey)
    ∧ (∀ j b, (toBatches l)[j]? = some b → ∀ s ∈ b,
        BatchEvent.start j s ∈ runTrace res 0 (toBatches l)
        ∧ BatchEvent.resolve j s ∈ runTrace res 0 (toBatches l)
        ∧ BatchEvent.report j s ∈ runTrace res 0 (toBatches l)) := by
  refine ⟨toBatches_flatten l, toBatches_length_le l, fun h => toBatches_25 l h,
    runTrace_sorted res (toBatches l) 0, ?_⟩
  intro j b hj s hs
  have h := runTrace_mem res hres (toBatches l) 0 j b hj s hs
  simpa using h

/-- Witness for C4: the 25-descriptor sample registry yields exactly the
batch sizes 10, 10, 5. -/
theorem c4_batched_launches_witness :
    (toBatches reg25).map List.length = [10, 10, 5] := by
  exact (c4_batched_launches reg25 id (fun b => List.Perm.refl b)).2.2.1 (by simp [reg25])
